import Mathlib

/-!
# Verification of the in-memory todo store (`lib/store.js`)

A shallow embedding of the task-tracker's store module. The store's
module-level mutable state (`todos`, `idCounter`, `queryCache`) becomes an
explicit `Store` value threaded through every operation; a JS function that
may `throw` returns an `Except` paired with the state as it stands when the
function exits (normally or by throw). JS strings are modelled as Lean
`String`s with the relevant primitives (`trim`, `toLowerCase`, `includes`)
defined over their character lists.
-/

set_option autoImplicit false

namespace TaskTracker

/-- Model of JS `String.prototype.toLowerCase` (per-character lowercasing). -/
def strToLower (s : String) : String := ⟨s.data.map Char.toLower⟩

/-- Model of JS `String.prototype.trim`: drop whitespace from both ends. -/
def strTrim (s : String) : String :=
  ⟨((s.data.dropWhile Char.isWhitespace).reverse.dropWhile Char.isWhitespace).reverse⟩

/-- `matchHere q s`: the character list `q` occurs at the very start of `s`. -/
def matchHere : List Char → List Char → Bool
  | [], _ => true
  | _ :: _, [] => false
  | a :: as, b :: bs => a == b && matchHere as bs

/-- `subMatch q s`: the character list `q` occurs contiguously somewhere in `s`. -/
def subMatch (q : List Char) : List Char → Bool
  | [] => q.isEmpty
  | b :: bs => matchHere q (b :: bs) || subMatch q bs

/-- Model of JS `s.includes(q)`: `q` is a contiguous substring of `s`. -/
def strIncludes (s q : String) : Bool := subMatch q.data s.data

/-- A todo record as created by the store (`createdAt` modelled as a
numeric timestamp supplied by the caller in place of `new Date()`). -/
structure Todo where
  id : Nat
  title : String
  description : String
  completed : Bool
  createdAt : Nat
  deriving Repr, DecidableEq

/-- The normalized status filter: `"all" | "active" | "completed"`. -/
inductive Status where
  | all
  | active
  | completed
  deriving Repr, DecidableEq

/-- The one error kind the store raises (`throw new Error("Title is required")`). -/
inductive StoreError where
  | validationError
  deriving Repr, DecidableEq

/-- A cache key: the `(status, q)` pair (`JSON.stringify({status, q})` is
injective on these, so the pair itself serves as the key). -/
abbrev QueryKey := Status × String

/-- The store module's state: the `todos` array, the `idCounter`, and the
`queryCache` Map. The Map is an association list in insertion order,
earliest-inserted entry first. -/
structure Store where
  todos : List Todo
  idCounter : Nat
  queryCache : List (QueryKey × List Todo)
  deriving Repr, DecidableEq

/-- Module initialization: `todos = []`, `idCounter = 1`, empty cache. -/
def initialStore : Store :=
  { todos := [], idCounter := 1, queryCache := [] }

/-- `const CACHE_SIZE_LIMIT = 50`. -/
def CACHE_SIZE_LIMIT : Nat := 50

/-- `clearCache()`: `queryCache.clear()`. -/
def clearCache (s : Store) : Store := { s with queryCache := [] }

/-- `queryCache.get(k)` combined with `queryCache.has(k)`: first (and, in
reachable states, only) entry with the given key. Polymorphic in the value
type so the value-level and reference-level caches share it. -/
def cacheFind {α : Type} (c : List (QueryKey × α)) (k : QueryKey) : Option α :=
  match c with
  | [] => none
  | e :: rest => if e.1 = k then some e.2 else cacheFind rest k

/-- The status-filter stage of `getTodos`:
`if (status !== "all") results = results.filter(todo => todo.completed === isCompleted)`. -/
def statusFilter (status : Status) (todos : List Todo) : List Todo :=
  if status = Status.all then todos
  else
    let isCompleted : Bool := decide (status = Status.completed)
    todos.filter fun todo => todo.completed == isCompleted

/-- The search-filter stage of `getTodos`: when `q` is truthy (non-empty),
keep todos whose lowercased title includes the lowercased query, or whose
description is truthy (non-empty) and, lowercased, includes it. -/
def searchFilter (q : String) (todos : List Todo) : List Todo :=
  if q = "" then todos
  else
    let query := strToLower q
    todos.filter fun todo =>
      strIncludes (strToLower todo.title) query ||
      (!(todo.description = "") && strIncludes (strToLower todo.description) query)

/-- The cache-miss computation of `getTodos`: status filter, then search
filter (the `[...results]` copy is the identity on values). -/
def computeQuery (status : Status) (q : String) (todos : List Todo) : List Todo :=
  searchFilter q (statusFilter status todos)

/-- `getTodos({status, q})`: serve from `queryCache` on a hit; otherwise
compute, evict the earliest-inserted entry if the cache is at
`CACHE_SIZE_LIMIT`, store the result, and return it. -/
def getTodos (s : Store) (status : Status) (q : String) : List Todo × Store :=
  let cacheKey : QueryKey := (status, q)
  match cacheFind s.queryCache cacheKey with
  | some cached => (cached, s)
  | none =>
    let finalResults := computeQuery status q s.todos
    let afterEvict :=
      if s.queryCache.length ≥ CACHE_SIZE_LIMIT then s.queryCache.tail else s.queryCache
    (finalResults, { s with queryCache := afterEvict ++ [(cacheKey, finalResults)] })

/-- `createTodo({title, description})`: throws (before any mutation) when the
trimmed title is empty; otherwise appends a new record carrying `id =
idCounter` (then incremented), the trimmed title, `completed = false`, and
clears the cache. `now` stands for `new Date().toISOString()`. -/
def createTodo (s : Store) (title description : String) (now : Nat) :
    Except StoreError Todo × Store :=
  let trimmedTitle := strTrim title
  if trimmedTitle = "" then
    (Except.error StoreError.validationError, s)
  else
    let newTodo : Todo :=
      { id := s.idCounter, title := trimmedTitle, description := description,
        completed := false, createdAt := now }
    (Except.ok newTodo,
      { todos := s.todos ++ [newTodo], idCounter := s.idCounter + 1, queryCache := [] })

/-- JS `Array.prototype.findIndex`: index of the first element satisfying `p`. -/
def findIdxA (p : Todo → Bool) : List Todo → Option Nat
  | [] => none
  | t :: rest => if p t then some 0 else (findIdxA p rest).map (· + 1)

/-- The partial-fields argument of `updateTodo`: each field either absent or
supplied, mirroring a JS object with keys among `title`, `description`,
`completed`. -/
structure TodoUpdates where
  title : Option String := none
  description : Option String := none
  completed : Option Bool := none
  deriving Repr, DecidableEq

/-- The spread `{ ...todo, ...updates }`: supplied fields overwrite. -/
def applyUpdates (t : Todo) (u : TodoUpdates) : Todo :=
  { t with
    title := u.title.getD t.title
    description := u.description.getD t.description
    completed := u.completed.getD t.completed }

/-- `updateTodo(id, updates)`: not-found sentinel when no record matches;
otherwise merge the supplied fields, validate a supplied title (throwing
before the store is written), store the merged record at the same index,
and clear the cache. -/
def updateTodo (s : Store) (id : Nat) (u : TodoUpdates) :
    Except StoreError (Option Todo) × Store :=
  match findIdxA (fun t => t.id == id) s.todos with
  | none => (Except.ok none, s)
  | some todoIndex =>
    match s.todos.get? todoIndex with
    | none => (Except.ok none, s)
    | some todo =>
      let merged := applyUpdates todo u
      match u.title with
      | some newTitle =>
        if strTrim newTitle = "" then
          (Except.error StoreError.validationError, s)
        else
          let updatedTodo := { merged with title := strTrim newTitle }
          (Except.ok (some updatedTodo),
            { s with todos := s.todos.set todoIndex updatedTodo, queryCache := [] })
      | none =>
        (Except.ok (some merged),
          { s with todos := s.todos.set todoIndex merged, queryCache := [] })

/-- `toggleTodo(id)`: flip `completed` on the first record with this id
(not-found sentinel otherwise) and clear the cache. -/
def toggleTodo (s : Store) (id : Nat) : Option Todo × Store :=
  match findIdxA (fun t => t.id == id) s.todos with
  | none => (none, s)
  | some idx =>
    match s.todos.get? idx with
    | none => (none, s)
    | some todo =>
      let toggled := { todo with completed := !todo.completed }
      (some toggled, { s with todos := s.todos.set idx toggled, queryCache := [] })

/-- `deleteTodo(id)`: splice out the first record with this id and clear the
cache; not-found sentinel (with no cache invalidation) otherwise. -/
def deleteTodo (s : Store) (id : Nat) : Option Todo × Store :=
  match findIdxA (fun t => t.id == id) s.todos with
  | none => (none, s)
  | some idx =>
    match s.todos.get? idx with
    | none => (none, s)
    | some todo =>
      (some todo, { s with todos := s.todos.eraseIdx idx, queryCache := [] })

/-- `bulkToggleTodos(ids)`: flip `completed` on every record whose id is in
the id set (`new Set(ids)` makes membership what matters, not multiplicity),
collect the updated records in traversal order, and clear the cache only
when at least one record was affected. -/
def bulkToggleTodos (s : Store) (ids : List Nat) : List Todo × Store :=
  let newTodos := s.todos.map fun t =>
    if decide (t.id ∈ ids) then { t with completed := !t.completed } else t
  let updatedTodos := newTodos.filter fun t => decide (t.id ∈ ids)
  (updatedTodos,
    { s with todos := newTodos,
             queryCache := if updatedTodos.isEmpty then s.queryCache else [] })

/-- `bulkDeleteTodos(ids)`: keep exactly the records whose id is not in the
set, collect the removed ones in order, and clear the cache only when at
least one record was removed. -/
def bulkDeleteTodos (s : Store) (ids : List Nat) : List Todo × Store :=
  let deletedTodos := s.todos.filter fun t => decide (t.id ∈ ids)
  let remaining := s.todos.filter fun t => !decide (t.id ∈ ids)
  (deletedTodos,
    { s with todos := remaining,
             queryCache := if deletedTodos.isEmpty then s.queryCache else [] })

/-- `clearAllTodos()`: report the count, empty the collection, reset the id
counter to 1, clear the cache. -/
def clearAllTodos (s : Store) : Nat × Store :=
  (s.todos.length, { todos := [], idCounter := 1, queryCache := [] })

/-- The store states reachable from module initialization by any sequence of
store operations (queries included, since `getTodos` writes the cache). -/
inductive Reachable : Store → Prop where
  | init : Reachable initialStore
  | query (s : Store) (status : Status) (q : String) :
      Reachable s → Reachable (getTodos s status q).2
  | create (s : Store) (title description : String) (now : Nat) :
      Reachable s → Reachable (createTodo s title description now).2
  | update (s : Store) (id : Nat) (u : TodoUpdates) :
      Reachable s → Reachable (updateTodo s id u).2
  | toggle (s : Store) (id : Nat) :
      Reachable s → Reachable (toggleTodo s id).2
  | del (s : Store) (id : Nat) :
      Reachable s → Reachable (deleteTodo s id).2
  | bulkToggle (s : Store) (ids : List Nat) :
      Reachable s → Reachable (bulkToggleTodos s ids).2
  | bulkDelete (s : Store) (ids : List Nat) :
      Reachable s → Reachable (bulkDeleteTodos s ids).2
  | clearAll (s : Store) :
      Reachable s → Reachable (clearAllTodos s).2

/-! ## Spec-side formulations (used to state refinement claims) -/

/-- The spec's status criterion: keep a record when the filter is `all`, or
when its `completed` flag equals `status == completed`. -/
def specStatusMatch (status : Status) (t : Todo) : Bool :=
  decide (status = Status.all) || t.completed == decide (status = Status.completed)

/-- The spec's text criterion: an empty query matches everything; otherwise
the record's title or description must contain the lowercased query as a
case-insensitive substring. -/
def specSearchMatch (q : String) (t : Todo) : Bool :=
  decide (q = "") || strIncludes (strToLower t.title) (strToLower q) ||
    strIncludes (strToLower t.description) (strToLower q)

/-- The record `updateTodo` produces in its success case: the spread-merge of
the supplied fields, with a supplied title replaced by its trimmed form. -/
def mergedTodo (todo : Todo) (u : TodoUpdates) : Todo :=
  match u.title with
  | some newTitle => { applyUpdates todo u with title := strTrim newTitle }
  | none => applyUpdates todo u

/-! ## Store invariants -/

/-- Every cache entry equals the recomputation of its key's filter over the
current record collection. -/
def cacheCoherent (s : Store) : Prop :=
  ∀ e ∈ s.queryCache, e.2 = computeQuery e.1.1 e.1.2 s.todos

/-- No two cache entries share a key. -/
def cacheKeysNodup (s : Store) : Prop :=
  (s.queryCache.map Prod.fst).Nodup

/-- The cache never exceeds `CACHE_SIZE_LIMIT` entries. -/
def cacheBounded (s : Store) : Prop :=
  s.queryCache.length ≤ CACHE_SIZE_LIMIT

/-- The conjunction of the store's cache invariants. -/
def StoreInv (s : Store) : Prop :=
  cacheCoherent s ∧ cacheKeysNodup s ∧ cacheBounded s

/-- Reachability from an arbitrary starting store by operation sequences
that contain no `clearAllTodos` (the operation that resets `idCounter`). -/
inductive ReachableNCFrom : Store → Store → Prop where
  | refl (s : Store) : ReachableNCFrom s s
  | query (s0 s : Store) (status : Status) (q : String) :
      ReachableNCFrom s0 s → ReachableNCFrom s0 (getTodos s status q).2
  | create (s0 s : Store) (title description : String) (now : Nat) :
      ReachableNCFrom s0 s → ReachableNCFrom s0 (createTodo s title description now).2
  | update (s0 s : Store) (id : Nat) (u : TodoUpdates) :
      ReachableNCFrom s0 s → ReachableNCFrom s0 (updateTodo s id u).2
  | toggle (s0 s : Store) (id : Nat) :
      ReachableNCFrom s0 s → ReachableNCFrom s0 (toggleTodo s id).2
  | del (s0 s : Store) (id : Nat) :
      ReachableNCFrom s0 s → ReachableNCFrom s0 (deleteTodo s id).2
  | bulkToggle (s0 s : Store) (ids : List Nat) :
      ReachableNCFrom s0 s → ReachableNCFrom s0 (bulkToggleTodos s ids).2
  | bulkDelete (s0 s : Store) (ids : List Nat) :
      ReachableNCFrom s0 s → ReachableNCFrom s0 (bulkDeleteTodos s ids).2

/-! ## Reference-level model for aliasing behaviour

The value-level `Store` above cannot express JS object identity, so claims
about defensive copies are settled on a second, reference-level embedding of
the same source functions: records live in a heap (`recs`; a record's
reference is its index), the store's `todos` array and every query result
are lists of references, and the cache maps keys to the reference lists it
was handed. The `[...results]` spread copies the top-level list of
references but not the records they point at, and `queryCache.set(cacheKey,
finalResults)` stores the very list that is returned. -/

/-- Reference-level store state. -/
structure HStore where
  recs : List Todo
  todoRefs : List Nat
  idCounter : Nat
  queryCache : List (QueryKey × List Nat)
  deriving Repr, DecidableEq

/-- Dereference a record reference (out-of-range yields a dummy record;
never hit in the runs considered). -/
def derefRec (h : List Todo) (r : Nat) : Todo :=
  (h.get? r).getD { id := 0, title := "", description := "", completed := false, createdAt := 0 }

/-- The caller-visible contents of a result: the records its references
point at in the given heap. -/
def derefAll (h : List Todo) (rs : List Nat) : List Todo :=
  rs.map (derefRec h)

/-- Reference-level `getTodos`: identical control flow to `getTodos`, but
filtering reference lists by the dereferenced records; the result handed to
the cache and to the caller is one and the same reference list. -/
def getTodosH (s : HStore) (status : Status) (q : String) : List Nat × HStore :=
  let cacheKey : QueryKey := (status, q)
  match cacheFind s.queryCache cacheKey with
  | some cached => (cached, s)
  | none =>
    let results1 :=
      if status = Status.all then s.todoRefs
      else
        let isCompleted : Bool := decide (status = Status.completed)
        s.todoRefs.filter fun r => (derefRec s.recs r).completed == isCompleted
    let finalResults :=
      if q = "" then results1
      else
        let query := strToLower q
        results1.filter fun r =>
          strIncludes (strToLower (derefRec s.recs r).title) query ||
          (!((derefRec s.recs r).description = "") &&
            strIncludes (strToLower (derefRec s.recs r).description) query)
    let afterEvict :=
      if s.queryCache.length ≥ CACHE_SIZE_LIMIT then s.queryCache.tail else s.queryCache
    (finalResults, { s with queryCache := afterEvict ++ [(cacheKey, finalResults)] })

/-- First reference in `refs` whose record carries the given id. -/
def findRef (recs : List Todo) (refs : List Nat) (id : Nat) : Option Nat :=
  match refs with
  | [] => none
  | r :: rest => if (derefRec recs r).id == id then some r else findRef recs rest id

/-- Reference-level `toggleTodo`: `todo.completed = !todo.completed` mutates
the record in the heap, in place, leaving every list that references it
pointing at the updated record. -/
def toggleTodoH (s : HStore) (id : Nat) : Option Nat × HStore :=
  match findRef s.recs s.todoRefs id with
  | none => (none, s)
  | some r =>
    let t := derefRec s.recs r
    (some r,
      { s with recs := s.recs.set r { t with completed := !t.completed }, queryCache := [] })

/-! ## Concrete fixtures for witnesses and counterexamples -/

/-- A sample record. -/
def sampleTodo : Todo :=
  { id := 1, title := "buy milk", description := "", completed := false, createdAt := 0 }

/-- A sample one-record store. -/
def sampleStore : Store :=
  { todos := [sampleTodo], idCounter := 2, queryCache := [] }

/-- The record created by `createTodo initialStore "a" "" 0`. -/
def c4Todo : Todo :=
  { id := 1, title := "a", description := "", completed := false, createdAt := 0 }

/-- The store after that first create. -/
def c4Store : Store :=
  { todos := [c4Todo], idCounter := 2, queryCache := [] }

/-- Reference-level one-record store: the record with id 1 lives at heap
slot 0, and the store's array holds that single reference. -/
def hSample : HStore :=
  { recs := [c4Todo], todoRefs := [0], idCounter := 2, queryCache := [] }

/-! ## String helper lemmas -/

theorem data_eq_nil_iff (s : String) : s.data = [] ↔ s = "" := by
  cases s with
  | mk l =>
    constructor
    · intro h
      subst h
      rfl
    · intro h
      exact congrArg String.data h

theorem strToLower_data (s : String) : (strToLower s).data = s.data.map Char.toLower := rfl

theorem strToLower_ne_empty {q : String} (h : ¬ q = "") : ¬ strToLower q = "" := by
  intro hl
  apply h
  apply (data_eq_nil_iff q).mp
  have h2 := (data_eq_nil_iff (strToLower q)).mpr hl
  rw [strToLower_data] at h2
  exact List.map_eq_nil_iff.mp h2

theorem subMatch_nil (q : List Char) : subMatch q [] = q.isEmpty := rfl

theorem strIncludes_empty_left {q : String} (h : ¬ q = "") : strIncludes "" q = false := by
  show subMatch q.data [] = false
  rw [subMatch_nil]
  cases hq : q.data with
  | nil => exact absurd ((data_eq_nil_iff q).mp hq) h
  | cons a l => rfl

/-! ## Cache lookup lemmas -/

theorem cacheFind_cons {α : Type} (e : QueryKey × α) (rest : List (QueryKey × α))
    (k : QueryKey) :
    cacheFind (e :: rest) k = if e.1 = k then some e.2 else cacheFind rest k := rfl

theorem cacheFind_none_iff {α : Type} {c : List (QueryKey × α)} {k : QueryKey} :
    cacheFind c k = none ↔ ∀ e ∈ c, e.1 ≠ k := by
  induction c with
  | nil => simp [cacheFind]
  | cons e rest ih =>
    rw [cacheFind_cons]
    by_cases he : e.1 = k
    · simp [he]
    · simp [he, ih]

theorem cacheFind_mem {α : Type} {c : List (QueryKey × α)} {k : QueryKey} {v : α}
    (h : cacheFind c k = some v) : (k, v) ∈ c := by
  induction c with
  | nil => simp [cacheFind] at h
  | cons e rest ih =>
    rw [cacheFind_cons] at h
    by_cases he : e.1 = k
    · rw [if_pos he] at h
      injection h with hv
      cases e with
      | mk k' v' =>
        cases he
        cases hv
        exact List.mem_cons_self _ _
    · rw [if_neg he] at h
      exact List.mem_cons_of_mem _ (ih h)

theorem cacheFind_append_of_none {α : Type} {c : List (QueryKey × α)} {k : QueryKey} (v : α)
    (h : cacheFind c k = none) : cacheFind (c ++ [(k, v)]) k = some v := by
  induction c with
  | nil => simp [cacheFind]
  | cons e rest ih =>
    rw [cacheFind_cons] at h
    by_cases he : e.1 = k
    · rw [if_pos he] at h
      exact absurd h (by simp)
    · rw [if_neg he] at h
      show cacheFind (e :: (rest ++ [(k, v)])) k = some v
      rw [cacheFind_cons, if_neg he]
      exact ih h

theorem cacheFind_tail_none {α : Type} {c : List (QueryKey × α)} {k : QueryKey}
    (h : cacheFind c k = none) : cacheFind c.tail k = none := by
  cases c with
  | nil => simpa using h
  | cons e rest =>
    rw [cacheFind_none_iff] at h ⊢
    intro e' he'
    exact h e' (List.mem_cons_of_mem _ he')

/-! ## `findIdxA` lemmas -/

theorem findIdxA_none_iff {p : Todo → Bool} {l : List Todo} :
    findIdxA p l = none ↔ ∀ t ∈ l, p t = false := by
  induction l with
  | nil => simp [findIdxA]
  | cons a l ih =>
    by_cases hp : p a
    · simp [findIdxA, hp]
    · simp [findIdxA, hp, ih]

theorem findIdxA_some {p : Todo → Bool} {l : List Todo} {i : Nat}
    (h : findIdxA p l = some i) :
    ∃ x, l.get? i = some x ∧ p x = true ∧
      ∀ j, j < i → ∀ y, l.get? j = some y → p y = false := by
  induction l generalizing i with
  | nil => simp [findIdxA] at h
  | cons a l ih =>
    by_cases hp : p a
    · simp [findIdxA, hp] at h
      subst h
      exact ⟨a, rfl, hp, fun j hj => absurd hj (Nat.not_lt_zero j)⟩
    · simp [findIdxA, hp] at h
      obtain ⟨i', hi', rfl⟩ := h
      obtain ⟨x, hg, hx, hmin⟩ := ih hi'
      refine ⟨x, by simpa using hg, hx, ?_⟩
      intro j hj y hy
      cases j with
      | zero =>
        have : a = y := by simpa using hy
        subst this
        simpa using hp
      | succ j =>
        exact hmin j (Nat.lt_of_succ_lt_succ hj) y (by simpa using hy)

/-! ## Operation characterization lemmas -/

theorem createTodo_of_blank {s : Store} {title : String} (description : String) (now : Nat)
    (h : strTrim title = "") :
    createTodo s title description now = (Except.error StoreError.validationError, s) := by
  unfold createTodo
  rw [if_pos h]

theorem createTodo_of_valid {s : Store} {title : String} (description : String) (now : Nat)
    (h : ¬ strTrim title = "") :
    createTodo s title description now =
      (Except.ok
        { id := s.idCounter, title := strTrim title, description := description,
          completed := false, createdAt := now },
       { todos := s.todos ++
          [{ id := s.idCounter, title := strTrim title, description := description,
             completed := false, createdAt := now }],
         idCounter := s.idCounter + 1, queryCache := [] }) := by
  unfold createTodo
  rw [if_neg h]

theorem updateTodo_not_found {s : Store} {id : Nat} (u : TodoUpdates)
    (hf : findIdxA (fun t => t.id == id) s.todos = none) :
    updateTodo s id u = (Except.ok none, s) := by
  unfold updateTodo
  rw [hf]

theorem updateTodo_found {s : Store} {id : Nat} {u : TodoUpdates} {idx : Nat} {todo : Todo}
    (hf : findIdxA (fun t => t.id == id) s.todos = some idx)
    (hg : s.todos.get? idx = some todo) :
    updateTodo s id u =
      match u.title with
      | some newTitle =>
        if strTrim newTitle = "" then (Except.error StoreError.validationError, s)
        else
          (Except.ok (some (mergedTodo todo u)),
           { s with todos := s.todos.set idx (mergedTodo todo u), queryCache := [] })
      | none =>
        (Except.ok (some (mergedTodo todo u)),
         { s with todos := s.todos.set idx (mergedTodo todo u), queryCache := [] }) := by
  unfold updateTodo
  rw [hf]
  dsimp only
  rw [hg]
  cases ht : u.title with
  | some newTitle =>
    dsimp only
    by_cases hv : strTrim newTitle = ""
    · rw [if_pos hv, if_pos hv]
    · rw [if_neg hv, if_neg hv]
      simp only [mergedTodo, ht]
  | none =>
    simp only [mergedTodo, ht]

theorem toggleTodo_not_found {s : Store} {id : Nat}
    (hf : findIdxA (fun t => t.id == id) s.todos = none) :
    toggleTodo s id = (none, s) := by
  unfold toggleTodo
  rw [hf]

theorem toggleTodo_found {s : Store} {id : Nat} {idx : Nat} {todo : Todo}
    (hf : findIdxA (fun t => t.id == id) s.todos = some idx)
    (hg : s.todos.get? idx = some todo) :
    toggleTodo s id =
      (some { todo with completed := !todo.completed },
       { s with todos := s.todos.set idx { todo with completed := !todo.completed },
                queryCache := [] }) := by
  unfold toggleTodo
  rw [hf]
  dsimp only
  rw [hg]

theorem deleteTodo_not_found {s : Store} {id : Nat}
    (hf : findIdxA (fun t => t.id == id) s.todos = none) :
    deleteTodo s id = (none, s) := by
  unfold deleteTodo
  rw [hf]

theorem deleteTodo_found {s : Store} {id : Nat} {idx : Nat} {todo : Todo}
    (hf : findIdxA (fun t => t.id == id) s.todos = some idx)
    (hg : s.todos.get? idx = some todo) :
    deleteTodo s id =
      (some todo, { s with todos := s.todos.eraseIdx idx, queryCache := [] }) := by
  unfold deleteTodo
  rw [hf]
  dsimp only
  rw [hg]

/-! ## `getTodos` characterization lemmas -/

theorem getTodos_hit {s : Store} {status : Status} {q : String} {v : List Todo}
    (h : cacheFind s.queryCache (status, q) = some v) : getTodos s status q = (v, s) := by
  simp only [getTodos, h]

theorem getTodos_miss {s : Store} {status : Status} {q : String}
    (h : cacheFind s.queryCache (status, q) = none) :
    getTodos s status q =
      (computeQuery status q s.todos,
       { s with queryCache :=
          (if s.queryCache.length ≥ CACHE_SIZE_LIMIT then s.queryCache.tail
           else s.queryCache) ++
          [((status, q), computeQuery status q s.todos)] }) := by
  simp only [getTodos, h]

theorem getTodos_todos (s : Store) (status : Status) (q : String) :
    ((getTodos s status q).2).todos = s.todos := by
  cases hc : cacheFind s.queryCache (status, q) with
  | none => rw [getTodos_miss hc]
  | some v => rw [getTodos_hit hc]

theorem getTodos_idCounter (s : Store) (status : Status) (q : String) :
    ((getTodos s status q).2).idCounter = s.idCounter := by
  cases hc : cacheFind s.queryCache (status, q) with
  | none => rw [getTodos_miss hc]
  | some v => rw [getTodos_hit hc]

theorem getTodos_cache_self (s : Store) (status : Status) (q : String) :
    cacheFind ((getTodos s status q).2).queryCache (status, q) =
      some (getTodos s status q).1 := by
  cases hc : cacheFind s.queryCache (status, q) with
  | some v =>
    rw [getTodos_hit hc]
    exact hc
  | none =>
    rw [getTodos_miss hc]
    dsimp only
    apply cacheFind_append_of_none
    by_cases hlen : s.queryCache.length ≥ CACHE_SIZE_LIMIT
    · rw [if_pos hlen]
      exact cacheFind_tail_none hc
    · rw [if_neg hlen]
      exact hc

theorem getTodos_stable (s : Store) (status : Status) (q : String) :
    (getTodos (getTodos s status q).2 status q).1 = (getTodos s status q).1 := by
  rw [getTodos_hit (getTodos_cache_self s status q)]

theorem getTodos_fst_of_coherent {s : Store} (hcoh : cacheCoherent s)
    (status : Status) (q : String) :
    (getTodos s status q).1 = computeQuery status q s.todos := by
  cases hc : cacheFind s.queryCache (status, q) with
  | some v =>
    rw [getTodos_hit hc]
    exact hcoh ((status, q), v) (cacheFind_mem hc)
  | none => rw [getTodos_miss hc]

/-! ## Invariant preservation -/

theorem storeInv_cache_nil {s : Store} (h : s.queryCache = []) : StoreInv s := by
  refine ⟨?_, ?_, ?_⟩
  · intro e he
    rw [h] at he
    cases he
  · show (s.queryCache.map Prod.fst).Nodup
    rw [h]
    exact List.nodup_nil
  · show s.queryCache.length ≤ CACHE_SIZE_LIMIT
    rw [h]
    exact Nat.zero_le _

theorem getTodos_inv {s : Store} (ih : StoreInv s) (status : Status) (q : String) :
    StoreInv (getTodos s status q).2 := by
  obtain ⟨hcoh, hnod, hbound⟩ := ih
  cases hc : cacheFind s.queryCache (status, q) with
  | some v =>
    rw [getTodos_hit hc]
    exact ⟨hcoh, hnod, hbound⟩
  | none =>
    rw [getTodos_miss hc]
    set c1 := if s.queryCache.length ≥ CACHE_SIZE_LIMIT then s.queryCache.tail
      else s.queryCache with hc1
    have hsub : c1.Sublist s.queryCache := by
      rw [hc1]
      split
      · exact List.tail_sublist _
      · exact List.Sublist.refl _
    have hfind1 : cacheFind c1 (status, q) = none := by
      rw [cacheFind_none_iff] at hc ⊢
      intro e he
      exact hc e (hsub.subset he)
    refine ⟨?_, ?_, ?_⟩
    · intro e he
      rcases List.mem_append.mp he with h1 | h2
      · exact hcoh e (hsub.subset h1)
      · have he2 : e = ((status, q), computeQuery status q s.todos) := by simpa using h2
        rw [he2]
    · show ((c1 ++ [((status, q), computeQuery status q s.todos)]).map Prod.fst).Nodup
      rw [List.map_append]
      apply List.Nodup.append
      · exact hnod.sublist (hsub.map Prod.fst)
      · simp
      · intro k hk1 hk2
        simp only [List.map_cons, List.map_nil, List.mem_singleton] at hk2
        subst hk2
        rw [cacheFind_none_iff] at hfind1
        obtain ⟨e, he, hke⟩ := List.mem_map.mp hk1
        exact hfind1 e he hke
    · show (c1 ++ [((status, q), computeQuery status q s.todos)]).length ≤ CACHE_SIZE_LIMIT
      rw [List.length_append]
      by_cases hlen : s.queryCache.length ≥ CACHE_SIZE_LIMIT
      · have h1 : c1.length = s.queryCache.length - 1 := by
          rw [hc1, if_pos hlen]
          exact List.length_tail _
        rw [h1]
        have hb : s.queryCache.length ≤ 50 := hbound
        have hl : 50 ≤ s.queryCache.length := hlen
        show s.queryCache.length - 1 + (List.nil.length + 1) ≤ 50
        simp only [List.length_nil]
        omega
      · have h1 : c1 = s.queryCache := by rw [hc1, if_neg hlen]
        rw [h1]
        have hl : ¬ 50 ≤ s.queryCache.length := hlen
        show s.queryCache.length + (List.nil.length + 1) ≤ 50
        simp only [List.length_nil]
        omega

theorem createTodo_inv {s : Store} (ih : StoreInv s) (title description : String)
    (now : Nat) : StoreInv (createTodo s title description now).2 := by
  by_cases h : strTrim title = ""
  · rw [createTodo_of_blank description now h]
    exact ih
  · rw [createTodo_of_valid description now h]
    exact storeInv_cache_nil rfl

theorem updateTodo_inv {s : Store} (ih : StoreInv s) (id : Nat) (u : TodoUpdates) :
    StoreInv (updateTodo s id u).2 := by
  cases hf : findIdxA (fun t => t.id == id) s.todos with
  | none =>
    rw [updateTodo_not_found u hf]
    exact ih
  | some idx =>
    obtain ⟨todo, hg, -, -⟩ := findIdxA_some hf
    rw [updateTodo_found hf hg]
    cases ht : u.title with
    | some newTitle =>
      dsimp only
      by_cases hv : strTrim newTitle = ""
      · rw [if_pos hv]
        exact ih
      · rw [if_neg hv]
        exact storeInv_cache_nil rfl
    | none => exact storeInv_cache_nil rfl

theorem toggleTodo_inv {s : Store} (ih : StoreInv s) (id : Nat) :
    StoreInv (toggleTodo s id).2 := by
  cases hf : findIdxA (fun t => t.id == id) s.todos with
  | none =>
    rw [toggleTodo_not_found hf]
    exact ih
  | some idx =>
    obtain ⟨todo, hg, -, -⟩ := findIdxA_some hf
    rw [toggleTodo_found hf hg]
    exact storeInv_cache_nil rfl

theorem deleteTodo_inv {s : Store} (ih : StoreInv s) (id : Nat) :
    StoreInv (deleteTodo s id).2 := by
  cases hf : findIdxA (fun t => t.id == id) s.todos with
  | none =>
    rw [deleteTodo_not_found hf]
    exact ih
  | some idx =>
    obtain ⟨todo, hg, -, -⟩ := findIdxA_some hf
    rw [deleteTodo_found hf hg]
    exact storeInv_cache_nil rfl

/-! ## Bulk-operation lemmas -/

theorem toggled_id (ids : List Nat) (t : Todo) :
    (if decide (t.id ∈ ids) then { t with completed := !t.completed } else t).id = t.id := by
  split <;> rfl

theorem isEmpty_map {α β : Type} (f : α → β) (l : List α) : (l.map f).isEmpty = l.isEmpty := by
  cases l <;> rfl

theorem emptyFilterIf (l : List Todo) (p : Todo → Bool) (c : List (QueryKey × List Todo)) :
    (if (l.filter p).isEmpty then c else []) = if l.any p then [] else c := by
  by_cases h : l.any p
  · rw [if_pos h]
    obtain ⟨t, ht, hpt⟩ := List.any_eq_true.mp h
    rw [if_neg]
    intro hemp
    rw [List.isEmpty_iff] at hemp
    have hmem : t ∈ l.filter p := List.mem_filter.mpr ⟨ht, hpt⟩
    rw [hemp] at hmem
    cases hmem
  · rw [if_neg h, if_pos]
    have h' : ∀ x ∈ l, ¬ p x = true := by simpa using h
    rw [List.isEmpty_iff]
    exact List.filter_eq_nil_iff.mpr h'

theorem bulkToggle_spec (s : Store) (ids : List Nat) :
    bulkToggleTodos s ids =
      ((s.todos.filter fun t => decide (t.id ∈ ids)).map
        (fun t => { t with completed := !t.completed }),
       { s with
          todos := s.todos.map fun t =>
            if decide (t.id ∈ ids) then { t with completed := !t.completed } else t,
          queryCache :=
            if s.todos.any (fun t => decide (t.id ∈ ids)) then [] else s.queryCache }) := by
  unfold bulkToggleTodos
  dsimp only
  have hfilter :
      ((s.todos.map fun t =>
          if decide (t.id ∈ ids) then { t with completed := !t.completed } else t).filter
        fun t => decide (t.id ∈ ids)) =
      (s.todos.filter fun t => decide (t.id ∈ ids)).map
        (fun t => { t with completed := !t.completed }) := by
    rw [List.filter_map]
    have h1 : ∀ t ∈ s.todos,
        ((fun t => decide (t.id ∈ ids)) ∘ fun t =>
          if decide (t.id ∈ ids) then { t with completed := !t.completed } else t) t =
        decide (t.id ∈ ids) := by
      intro t _
      show decide ((if decide (t.id ∈ ids) then { t with completed := !t.completed }
        else t).id ∈ ids) = decide (t.id ∈ ids)
      rw [toggled_id]
    rw [List.filter_congr h1]
    apply List.map_congr_left
    intro t ht
    have hpt := (List.mem_filter.mp ht).2
    simp only [hpt, if_pos]
  rw [hfilter, isEmpty_map, emptyFilterIf]

theorem bulkDelete_spec (s : Store) (ids : List Nat) :
    bulkDeleteTodos s ids =
      (s.todos.filter fun t => decide (t.id ∈ ids),
       { s with todos := s.todos.filter fun t => !decide (t.id ∈ ids),
                queryCache :=
                  if s.todos.any (fun t => decide (t.id ∈ ids)) then [] else s.queryCache }) := by
  unfold bulkDeleteTodos
  dsimp only
  rw [emptyFilterIf]

theorem bulkToggle_inv {s : Store} (ih : StoreInv s) (ids : List Nat) :
    StoreInv (bulkToggleTodos s ids).2 := by
  rw [bulkToggle_spec]
  by_cases h : s.todos.any (fun t => decide (t.id ∈ ids))
  · apply storeInv_cache_nil
    show (if s.todos.any (fun t => decide (t.id ∈ ids)) then [] else s.queryCache) = []
    rw [if_pos h]
  · have h' : ∀ x ∈ s.todos, ¬ (decide (x.id ∈ ids)) = true := by simpa using h
    have hmap : (s.todos.map fun t =>
        if decide (t.id ∈ ids) then { t with completed := !t.completed } else t) = s.todos := by
      have hid := List.map_congr_left (l := s.todos)
        (f := fun t => if decide (t.id ∈ ids) then { t with completed := !t.completed } else t)
        (g := id) (fun t ht => by simp [h' t ht])
      rw [hid, List.map_id]
    dsimp only
    rw [if_neg h, hmap]
    exact ih

theorem bulkDelete_inv {s : Store} (ih : StoreInv s) (ids : List Nat) :
    StoreInv (bulkDeleteTodos s ids).2 := by
  rw [bulkDelete_spec]
  by_cases h : s.todos.any (fun t => decide (t.id ∈ ids))
  · apply storeInv_cache_nil
    show (if s.todos.any (fun t => decide (t.id ∈ ids)) then [] else s.queryCache) = []
    rw [if_pos h]
  · have h' : ∀ x ∈ s.todos, ¬ (decide (x.id ∈ ids)) = true := by simpa using h
    have hkeep : (s.todos.filter fun t => !decide (t.id ∈ ids)) = s.todos := by
      apply List.filter_eq_self.mpr
      intro a ha
      simp [h' a ha]
    dsimp only
    rw [if_neg h, hkeep]
    exact ih

/-- Every reachable store satisfies the cache invariants. -/
theorem reachable_inv {s : Store} (h : Reachable s) : StoreInv s := by
  induction h with
  | init => exact storeInv_cache_nil rfl
  | query s status q _ ih => exact getTodos_inv ih status q
  | create s title description now _ ih => exact createTodo_inv ih title description now
  | update s id u _ ih => exact updateTodo_inv ih id u
  | toggle s id _ ih => exact toggleTodo_inv ih id
  | del s id _ ih => exact deleteTodo_inv ih id
  | bulkToggle s ids _ ih => exact bulkToggle_inv ih ids
  | bulkDelete s ids _ ih => exact bulkDelete_inv ih ids
  | clearAll s _ => exact storeInv_cache_nil rfl

/-! ## `idCounter` monotonicity (no `clearAllTodos`) -/

theorem createTodo_idCounter_le (s : Store) (title description : String) (now : Nat) :
    s.idCounter ≤ ((createTodo s title description now).2).idCounter := by
  by_cases h : strTrim title = ""
  · rw [createTodo_of_blank description now h]
  · rw [createTodo_of_valid description now h]
    exact Nat.le_succ _

theorem updateTodo_idCounter (s : Store) (id : Nat) (u : TodoUpdates) :
    ((updateTodo s id u).2).idCounter = s.idCounter := by
  cases hf : findIdxA (fun t => t.id == id) s.todos with
  | none => rw [updateTodo_not_found u hf]
  | some idx =>
    obtain ⟨todo, hg, -, -⟩ := findIdxA_some hf
    rw [updateTodo_found hf hg]
    cases ht : u.title with
    | some newTitle =>
      dsimp only
      split <;> rfl
    | none => rfl

theorem toggleTodo_idCounter (s : Store) (id : Nat) :
    ((toggleTodo s id).2).idCounter = s.idCounter := by
  cases hf : findIdxA (fun t => t.id == id) s.todos with
  | none => rw [toggleTodo_not_found hf]
  | some idx =>
    obtain ⟨todo, hg, -, -⟩ := findIdxA_some hf
    rw [toggleTodo_found hf hg]

theorem deleteTodo_idCounter (s : Store) (id : Nat) :
    ((deleteTodo s id).2).idCounter = s.idCounter := by
  cases hf : findIdxA (fun t => t.id == id) s.todos with
  | none => rw [deleteTodo_not_found hf]
  | some idx =>
    obtain ⟨todo, hg, -, -⟩ := findIdxA_some hf
    rw [deleteTodo_found hf hg]

theorem bulkToggle_idCounter (s : Store) (ids : List Nat) :
    ((bulkToggleTodos s ids).2).idCounter = s.idCounter := by
  rw [bulkToggle_spec]

theorem bulkDelete_idCounter (s : Store) (ids : List Nat) :
    ((bulkDeleteTodos s ids).2).idCounter = s.idCounter := by
  rw [bulkDelete_spec]

/-- `idCounter` never decreases along clearAll-free operation sequences. -/
theorem reachableNCFrom_idCounter_le {s0 s : Store} (h : ReachableNCFrom s0 s) :
    s0.idCounter ≤ s.idCounter := by
  induction h with
  | refl => exact Nat.le_refl _
  | query s status q _ ih => rw [getTodos_idCounter]; exact ih
  | create s title description now _ ih =>
    exact Nat.le_trans ih (createTodo_idCounter_le s title description now)
  | update s id u _ ih => rw [updateTodo_idCounter]; exact ih
  | toggle s id _ ih => rw [toggleTodo_idCounter]; exact ih
  | del s id _ ih => rw [deleteTodo_idCounter]; exact ih
  | bulkToggle s ids _ ih => rw [bulkToggle_idCounter]; exact ih
  | bulkDelete s ids _ ih => rw [bulkDelete_idCounter]; exact ih

/-! ## Filter-stage refinement lemmas -/

theorem statusFilter_eq (status : Status) (todos : List Todo) :
    statusFilter status todos = todos.filter (fun t => specStatusMatch status t) := by
  unfold statusFilter specStatusMatch
  by_cases hs : status = Status.all
  · subst hs
    simp
  · rw [if_neg hs]
    simp only [hs, decide_False, Bool.false_or]

theorem searchFilter_eq (q : String) (todos : List Todo) :
    searchFilter q todos = todos.filter (fun t => specSearchMatch q t) := by
  unfold searchFilter specSearchMatch
  by_cases hq : q = ""
  · subst hq
    simp
  · rw [if_neg hq]
    refine List.filter_congr ?_
    intro t _
    simp only [hq, decide_False, Bool.false_or]
    have h1 : strIncludes (strToLower "") (strToLower q) = false :=
      strIncludes_empty_left (strToLower_ne_empty hq)
    by_cases hd : t.description = ""
    · simp [hd, h1]
    · simp [hd]

/-! ## Claim theorems -/

/-- **C1**: for every reachable store state and normalized filter, `query`
returns exactly the filter recomputed over the current record collection —
whatever the cache holds — and an immediately repeated identical query
(no mutation in between) returns the same list; since the post-state of any
completed mutation is again reachable, the same equation makes the next
query reflect the mutated state. -/
theorem C1_query_reflects_state (s : Store) (h : Reachable s) (status : Status) (q : String) :
    (getTodos s status q).1 = computeQuery status q s.todos ∧
    (getTodos (getTodos s status q).2 status q).1 = (getTodos s status q).1 :=
  ⟨getTodos_fst_of_coherent (reachable_inv h).1 status q, getTodos_stable s status q⟩

/-- Witness for C1 at the initial store. -/
theorem C1_query_reflects_state_witness :
    (getTodos initialStore Status.all "").1 = computeQuery Status.all "" initialStore.todos ∧
    (getTodos (getTodos initialStore Status.all "").2 Status.all "").1 =
      (getTodos initialStore Status.all "").1 :=
  C1_query_reflects_state initialStore Reachable.init Status.all ""

/-- **C2**: the cache-miss computation filters by status first, then by
non-empty text (case-insensitive substring against title or description),
equals the single-pass filter the spec describes, preserves insertion order
(it is a subsequence of the collection), and the `("all", "")` query returns
every record. -/
theorem C2_filter_semantics (status : Status) (q : String) (todos : List Todo) :
    computeQuery status q todos =
      todos.filter (fun t => specStatusMatch status t && specSearchMatch q t) ∧
    (computeQuery status q todos).Sublist todos ∧
    computeQuery Status.all "" todos = todos := by
  have hmain : computeQuery status q todos =
      todos.filter (fun t => specStatusMatch status t && specSearchMatch q t) := by
    unfold computeQuery
    rw [statusFilter_eq, searchFilter_eq, List.filter_filter]
    exact List.filter_congr (fun t _ => Bool.and_comm _ _)
  refine ⟨hmain, ?_, ?_⟩
  · rw [hmain]
    exact List.filter_sublist todos
  · show searchFilter "" (statusFilter Status.all todos) = todos
    unfold searchFilter statusFilter
    simp

/-- **C3**: `create` fails with `ValidationError` exactly when the title
trims to empty; on success the new record carries the trimmed title,
`completed = false`, the current counter value as id, the counter is
incremented, and the record is appended at the end of the collection. -/
theorem C3_create_contract (s : Store) (title description : String) (now : Nat) :
    ((createTodo s title description now).1 = Except.error StoreError.validationError ↔
      strTrim title = "") ∧
    (∀ t s', createTodo s title description now = (Except.ok t, s') →
      t.title = strTrim title ∧ t.completed = false ∧ t.id = s.idCounter ∧
      s'.idCounter = s.idCounter + 1 ∧ s'.todos = s.todos ++ [t]) := by
  by_cases h : strTrim title = ""
  · rw [createTodo_of_blank description now h]
    constructor
    · simpa using h
    · intro t s' he
      simp at he
  · rw [createTodo_of_valid description now h]
    constructor
    · simpa using h
    · intro t s' he
      rw [Prod.mk.injEq] at he
      obtain ⟨he1, he2⟩ := he
      injection he1 with h1
      subst h1
      subst he2
      exact ⟨rfl, rfl, rfl, rfl, rfl⟩

/-- Witness for C3: a whitespace-only title is rejected. -/
theorem C3_create_contract_witness :
    (createTodo initialStore "   " "notes" 0).1 = Except.error StoreError.validationError :=
  (C3_create_contract initialStore "   " "notes" 0).1.mpr (by decide)

/-- **C8**: deleting a non-existent id returns the not-found sentinel, leaves
the store (records and cache) untouched, and an identical query issued after
the failed delete is answered with the same (cached) result as before it. -/
theorem C8_delete_missing_noop (s : Store) (id : Nat)
    (h : ∀ t ∈ s.todos, t.id ≠ id) :
    deleteTodo s id = (none, s) ∧
    (∀ status q,
      (getTodos ((deleteTodo (getTodos s status q).2 id).2) status q).1 =
        (getTodos s status q).1) := by
  have hf : findIdxA (fun t => t.id == id) s.todos = none :=
    findIdxA_none_iff.mpr (fun t ht => by simpa using h t ht)
  refine ⟨deleteTodo_not_found hf, ?_⟩
  intro status q
  have hf2 : findIdxA (fun t => t.id == id) ((getTodos s status q).2).todos = none := by
    rw [getTodos_todos]
    exact hf
  rw [deleteTodo_not_found hf2]
  exact getTodos_stable s status q

/-- Witness for C8 at a store holding only id 1. -/
theorem C8_delete_missing_noop_witness :
    deleteTodo sampleStore 2 = (none, sampleStore) :=
  (C8_delete_missing_noop sampleStore 2 (by decide)).1

/-- **C10**: a `ValidationError` raised by `create`, or by an `update` whose
supplied title trims to empty (whatever other valid fields it supplies),
leaves the store exactly as it was: records, id counter and cache. -/
theorem C10_validation_atomic (s : Store) (title description : String) (now : Nat)
    (id : Nat) (u : TodoUpdates) :
    ((createTodo s title description now).1 = Except.error StoreError.validationError →
      (createTodo s title description now).2 = s) ∧
    ((updateTodo s id u).1 = Except.error StoreError.validationError →
      (updateTodo s id u).2 = s) := by
  constructor
  · intro h
    by_cases hv : strTrim title = ""
    · rw [createTodo_of_blank description now hv]
    · rw [createTodo_of_valid description now hv] at h
      simp at h
  · intro h
    cases hf : findIdxA (fun t => t.id == id) s.todos with
    | none => rw [updateTodo_not_found u hf]
    | some idx =>
      obtain ⟨todo, hg, -, -⟩ := findIdxA_some hf
      have heq := updateTodo_found (u := u) hf hg
      cases ht : u.title with
      | some newTitle =>
        rw [ht] at heq
        dsimp only at heq
        by_cases hv : strTrim newTitle = ""
        · rw [heq, if_pos hv]
        · rw [heq, if_neg hv] at h
          simp at h
      | none =>
        rw [ht] at heq
        dsimp only at heq
        rw [heq] at h
        simp at h

/-- Witness for C10: a blank create against the sample store changes nothing. -/
theorem C10_validation_atomic_witness :
    (createTodo sampleStore "   " "x" 7).2 = sampleStore :=
  (C10_validation_atomic sampleStore "   " "x" 7 1 {}).1
    (by rw [createTodo_of_blank "x" 7 (by decide)])

/-- **C5**: `update` on a missing id returns the not-found sentinel with the
store untouched; with the record present it fails with `ValidationError`
exactly when a supplied title trims to empty; on success it rewrites only
the targeted record, applying exactly the supplied fields (a supplied title
trimmed) and preserving `id` and `createdAt`. -/
theorem C5_update_contract (s : Store) (id : Nat) (u : TodoUpdates) :
    ((∀ t ∈ s.todos, t.id ≠ id) → updateTodo s id u = (Except.ok none, s)) ∧
    ((updateTodo s id u).1 = Except.error StoreError.validationError ↔
      (∃ t ∈ s.todos, t.id = id) ∧ ∃ nt, u.title = some nt ∧ strTrim nt = "") ∧
    (∀ t' s', updateTodo s id u = (Except.ok (some t'), s') →
      ∃ i todo, s.todos.get? i = some todo ∧ todo.id = id ∧
        s'.todos = s.todos.set i t' ∧ s'.idCounter = s.idCounter ∧
        t'.id = todo.id ∧ t'.createdAt = todo.createdAt ∧
        t'.title = (match u.title with | some nt => strTrim nt | none => todo.title) ∧
        t'.description = u.description.getD todo.description ∧
        t'.completed = u.completed.getD todo.completed) := by
  refine ⟨?_, ?_, ?_⟩
  · intro h
    exact updateTodo_not_found u (findIdxA_none_iff.mpr fun t ht => by simpa using h t ht)
  · cases hf : findIdxA (fun t => t.id == id) s.todos with
    | none =>
      rw [updateTodo_not_found u hf]
      constructor
      · intro hcontra
        exact absurd hcontra (by simp)
      · rintro ⟨⟨t, ht, hid⟩, -⟩
        have hfalse := findIdxA_none_iff.mp hf t ht
        simp [hid] at hfalse
    | some idx =>
      obtain ⟨todo, hg, hp, -⟩ := findIdxA_some hf
      have hmem : todo ∈ s.todos := List.get?_mem hg
      have hid : todo.id = id := by simpa using hp
      have heq := updateTodo_found (u := u) hf hg
      cases ht : u.title with
      | some newTitle =>
        rw [ht] at heq
        dsimp only at heq
        by_cases hv : strTrim newTitle = ""
        · rw [if_pos hv] at heq
          rw [heq]
          constructor
          · intro _
            exact ⟨⟨todo, hmem, hid⟩, newTitle, rfl, hv⟩
          · intro _
            rfl
        · rw [if_neg hv] at heq
          rw [heq]
          constructor
          · intro hcontra
            simp at hcontra
          · rintro ⟨-, nt, hnt, htrim⟩
            injection hnt with hnt2
            subst hnt2
            exact absurd htrim hv
      | none =>
        rw [ht] at heq
        dsimp only at heq
        rw [heq]
        constructor
        · intro hcontra
          simp at hcontra
        · rintro ⟨-, nt, hnt, -⟩
          cases hnt
  · intro t' s' he
    cases hf : findIdxA (fun t => t.id == id) s.todos with
    | none =>
      rw [updateTodo_not_found u hf] at he
      simp at he
    | some idx =>
      obtain ⟨todo, hg, hp, -⟩ := findIdxA_some hf
      have hid : todo.id = id := by simpa using hp
      have heq := updateTodo_found (u := u) hf hg
      cases ht : u.title with
      | some newTitle =>
        rw [ht] at heq
        dsimp only at heq
        by_cases hv : strTrim newTitle = ""
        · rw [if_pos hv] at heq
          rw [heq] at he
          simp at he
        · rw [if_neg hv] at heq
          rw [heq] at he
          rw [Prod.mk.injEq] at he
          obtain ⟨he1, he2⟩ := he
          injection he1 with he1a
          injection he1a with he1b
          subst he1b
          subst he2
          refine ⟨idx, todo, hg, hid, rfl, rfl, ?_, ?_, ?_, ?_, ?_⟩
          all_goals simp [mergedTodo, applyUpdates, ht]
      | none =>
        rw [ht] at heq
        dsimp only at heq
        rw [heq] at he
        rw [Prod.mk.injEq] at he
        obtain ⟨he1, he2⟩ := he
        injection he1 with he1a
        injection he1a with he1b
        subst he1b
        subst he2
        refine ⟨idx, todo, hg, hid, rfl, rfl, ?_, ?_, ?_, ?_, ?_⟩
        all_goals simp [mergedTodo, applyUpdates, ht]

/-- Witness for C5: updating a missing id is a sentinel no-op. -/
theorem C5_update_contract_witness :
    updateTodo sampleStore 2 { completed := some true } = (Except.ok none, sampleStore) :=
  (C5_update_contract sampleStore 2 { completed := some true }).1 (by decide)

/-- **C6**: `bulkToggle` flips exactly the records whose id is in the id set
(each at most once, duplicate input ids being immaterial), silently skipping
unmatched ids; `bulkDelete` removes exactly the records whose id is in the
set, survivors keeping their relative order; each operation clears the
cache iff at least one record was affected. -/
theorem C6_bulk_contract (s : Store) (ids : List Nat) :
    (∀ i t, s.todos.get? i = some t →
      ((bulkToggleTodos s ids).2).todos.get? i =
        some (if decide (t.id ∈ ids) then { t with completed := !t.completed } else t)) ∧
    ((bulkToggleTodos s ids).1 =
      (s.todos.filter fun t => decide (t.id ∈ ids)).map
        (fun t => { t with completed := !t.completed })) ∧
    bulkToggleTodos s ids = bulkToggleTodos s ids.dedup ∧
    (((bulkToggleTodos s ids).2).queryCache =
      if s.todos.any (fun t => decide (t.id ∈ ids)) then [] else s.queryCache) ∧
    ((bulkDeleteTodos s ids).1 = s.todos.filter fun t => decide (t.id ∈ ids)) ∧
    (((bulkDeleteTodos s ids).2).todos.Sublist s.todos) ∧
    (∀ t, t ∈ ((bulkDeleteTodos s ids).2).todos ↔ t ∈ s.todos ∧ ¬ t.id ∈ ids) ∧
    (((bulkDeleteTodos s ids).2).queryCache =
      if s.todos.any (fun t => decide (t.id ∈ ids)) then [] else s.queryCache) := by
  refine ⟨?_, ?_, ?_, ?_, ?_, ?_, ?_, ?_⟩
  · intro i t hget
    rw [bulkToggle_spec]
    dsimp only
    rw [List.get?_map, hget]
    rfl
  · rw [bulkToggle_spec]
  · rw [bulkToggle_spec, bulkToggle_spec]
    simp only [List.mem_dedup]
  · rw [bulkToggle_spec]
  · rw [bulkDelete_spec]
  · rw [bulkDelete_spec]
    exact List.filter_sublist _
  · intro t
    rw [bulkDelete_spec]
    dsimp only
    rw [List.mem_filter]
    simp
  · rw [bulkDelete_spec]

/-- Witness for C6: toggling id 1 (listed twice) in the sample store. -/
theorem C6_bulk_contract_witness :
    ((bulkToggleTodos sampleStore [1, 1]).2).todos.get? 0 =
      some (if decide (sampleTodo.id ∈ [1, 1]) then
        { sampleTodo with completed := !sampleTodo.completed } else sampleTodo) :=
  (C6_bulk_contract sampleStore [1, 1]).1 0 sampleTodo rfl

/-- **C4 counterexample**: `clearAllTodos` resets the id counter to 1, so an
id is reused after its record's deletion: the first create returns id 1,
`clearAllTodos` removes that record, and the next create returns id 1
again. -/
theorem C4_counterexample :
    createTodo initialStore "a" "" 0 = (Except.ok c4Todo, c4Store) ∧
    (clearAllTodos c4Store).2.idCounter = 1 ∧
    (createTodo (clearAllTodos c4Store).2 "b" "" 0).1 =
      Except.ok
        { id := 1, title := "b", description := "", completed := false,
          createdAt := 0 } := by
  refine ⟨?_, rfl, ?_⟩
  · rfl
  · rfl

/-- **C4 amended**: along any operation sequence free of `clearAllTodos`,
the id counter never decreases and every successful create returns the
then-current counter and increments it — so ids of successive creates are
strictly increasing, unique, and never reused while no `clearAllTodos`
intervenes. -/
theorem C4_amended_ids_strictly_increase (s0 s : Store) (h : ReachableNCFrom s0 s) :
    s0.idCounter ≤ s.idCounter ∧
    (∀ title description now t s',
      createTodo s title description now = (Except.ok t, s') →
      t.id = s.idCounter ∧ s'.idCounter = s.idCounter + 1 ∧ s0.idCounter ≤ t.id) := by
  refine ⟨reachableNCFrom_idCounter_le h, ?_⟩
  intro title description now t s' he
  by_cases hv : strTrim title = ""
  · rw [createTodo_of_blank description now hv] at he
    simp at he
  · rw [createTodo_of_valid description now hv] at he
    rw [Prod.mk.injEq] at he
    obtain ⟨he1, he2⟩ := he
    injection he1 with h1
    subst h1
    subst he2
    exact ⟨rfl, rfl, reachableNCFrom_idCounter_le h⟩

/-- Witness for the amended C4: the very first create. -/
theorem C4_amended_witness :
    c4Todo.id = initialStore.idCounter ∧
    c4Store.idCounter = initialStore.idCounter + 1 ∧
    initialStore.idCounter ≤ c4Todo.id :=
  (C4_amended_ids_strictly_increase initialStore initialStore
    (ReachableNCFrom.refl initialStore)).2 "a" "" 0 c4Todo c4Store rfl

/-- **C7 counterexample**: in the reference-level model the list returned by
`getTodos` shares its record references with the store and is itself the
cached entry: after `toggleTodo` mutates the record in place, the contents
of the previously returned result have changed, and the cache maps the key
to the very list that was returned rather than to an independent copy. -/
theorem C7_counterexample :
    derefAll ((getTodosH hSample Status.all "").2).recs (getTodosH hSample Status.all "").1 =
      [{ id := 1, title := "a", description := "", completed := false, createdAt := 0 }] ∧
    cacheFind ((getTodosH hSample Status.all "").2).queryCache (Status.all, "") =
      some (getTodosH hSample Status.all "").1 ∧
    derefAll ((toggleTodoH (getTodosH hSample Status.all "").2 1).2).recs
        (getTodosH hSample Status.all "").1 =
      [{ id := 1, title := "a", description := "", completed := true, createdAt := 0 }] := by
  decide

/-- **C7 amended**: the list `query` returns on a cache miss is a fresh
top-level list, but its elements are references into the store's live
records, and the cached entry is the very list handed back to the caller
(not an independent copy) — so in-place record mutations remain visible
through previously returned results. -/
theorem C7_amended_result_shares_refs (s : HStore) (status : Status) (q : String)
    (hmiss : cacheFind s.queryCache (status, q) = none) :
    (∀ r ∈ (getTodosH s status q).1, r ∈ s.todoRefs) ∧
    cacheFind ((getTodosH s status q).2).queryCache (status, q) =
      some (getTodosH s status q).1 := by
  simp only [getTodosH, hmiss]
  constructor
  · intro r hr
    by_cases hq : q = ""
    · rw [if_pos hq] at hr
      by_cases hs : status = Status.all
      · rw [if_pos hs] at hr
        exact hr
      · rw [if_neg hs] at hr
        exact (List.mem_filter.mp hr).1
    · rw [if_neg hq] at hr
      have hr1 := (List.mem_filter.mp hr).1
      by_cases hs : status = Status.all
      · rw [if_pos hs] at hr1
        exact hr1
      · rw [if_neg hs] at hr1
        exact (List.mem_filter.mp hr1).1
  · apply cacheFind_append_of_none
    by_cases hlen : s.queryCache.length ≥ CACHE_SIZE_LIMIT
    · rw [if_pos hlen]
      exact cacheFind_tail_none hmiss
    · rw [if_neg hlen]
      exact hmiss

/-- Witness for the amended C7 at the reference-level sample store. -/
theorem C7_amended_witness :
    cacheFind ((getTodosH hSample Status.active "x").2).queryCache (Status.active, "x") =
      some (getTodosH hSample Status.active "x").1 :=
  (C7_amended_result_shares_refs hSample Status.active "x" (by decide)).2

/-- **C9**: reachable caches never exceed the 50-entry bound, querying keeps
them within it, and when an uncached query arrives with the cache at the
bound, the earliest-inserted entry is evicted (FIFO): the new cache is the
old one minus its head plus the new entry at the back, and the evicted key
is no longer served from cache. -/
theorem C9_cache_bound_fifo (s : Store) (h : Reachable s) (status : Status) (q : String) :
    s.queryCache.length ≤ CACHE_SIZE_LIMIT ∧
    ((getTodos s status q).2).queryCache.length ≤ CACHE_SIZE_LIMIT ∧
    (cacheFind s.queryCache (status, q) = none →
      s.queryCache.length = CACHE_SIZE_LIMIT →
      ((getTodos s status q).2).queryCache =
        s.queryCache.tail ++ [((status, q), computeQuery status q s.todos)] ∧
      ∀ k0 v0, s.queryCache.head? = some (k0, v0) →
        cacheFind ((getTodos s status q).2).queryCache k0 = none) := by
  obtain ⟨hcoh, hnod, hbound⟩ := reachable_inv h
  refine ⟨hbound, (getTodos_inv ⟨hcoh, hnod, hbound⟩ status q).2.2, ?_⟩
  intro hmiss hfull
  have hlen : s.queryCache.length ≥ CACHE_SIZE_LIMIT := Nat.le_of_eq hfull.symm
  have hcache : ((getTodos s status q).2).queryCache =
      s.queryCache.tail ++ [((status, q), computeQuery status q s.todos)] := by
    rw [getTodos_miss hmiss]
    dsimp only
    rw [if_pos hlen]
  refine ⟨hcache, ?_⟩
  intro k0 v0 hhead
  rw [hcache]
  have hnod' : (s.queryCache.map Prod.fst).Nodup := hnod
  cases hc : s.queryCache with
  | nil =>
    rw [hc] at hfull
    simp [CACHE_SIZE_LIMIT] at hfull
  | cons e rest =>
    rw [hc] at hhead
    have he : e = (k0, v0) := by simpa using hhead
    subst he
    rw [hc] at hnod'
    simp only [List.map_cons] at hnod'
    have hnotin : ¬ k0 ∈ rest.map Prod.fst := (List.nodup_cons.mp hnod').1
    have hk0 : k0 ≠ (status, q) := by
      rw [cacheFind_none_iff] at hmiss
      have hne := hmiss ((k0, v0)) (by rw [hc]; exact List.mem_cons_self _ _)
      simpa using hne
    show cacheFind (rest ++ [((status, q), computeQuery status q s.todos)]) k0 = none
    rw [cacheFind_none_iff]
    intro e' he'
    rcases List.mem_append.mp he' with h1 | h2
    · intro hcontra
      exact hnotin (hcontra ▸ List.mem_map_of_mem Prod.fst h1)
    · have he2 : e' = ((status, q), computeQuery status q s.todos) := by simpa using h2
      rw [he2]
      exact fun hcontra => hk0 hcontra.symm

/-- Witness for C9 at the initial store. -/
theorem C9_cache_bound_fifo_witness :
    initialStore.queryCache.length ≤ CACHE_SIZE_LIMIT :=
  (C9_cache_bound_fifo initialStore Reachable.init Status.all "").1

end TaskTracker
